import Mathlib

/-!
Verification of the translation-app batch pipeline frontend state machine
(src/context/extraction-context.tsx, src/lib/utils.ts) together with
spec-modelled components of the Rust backend (scheduler semaphore,
retry-with-backoff, translation fallback) that are documented but whose
source is not part of the repository snapshot.
-/

/-- Task lifecycle status, the TaskStatus union of src/types/extraction.ts as
used by the reducer in src/context/extraction-context.tsx. -/
inductive TaskStatus where
  | pending
  | processing
  | transcribing
  | translating
  | completed
  | failed
deriving DecidableEq, Repr

/-- Log entry category, the LogType union of src/types/extraction.ts plus the
translation category emitted by the backend logger. -/
inductive LogType where
  | metadata
  | ffprobe
  | ffmpeg
  | assemblyai
  | translation
  | error
deriving DecidableEq, Repr

/-- One structured log record (LogEntry in src/types/extraction.ts). -/
structure LogEntry where
  timestamp : String
  type : LogType
  message : String
deriving DecidableEq, Repr

/-- One unit of work (ExtractionTask in src/types/extraction.ts). Optional
TypeScript fields become Option; numeric timestamps become Nat. -/
structure ExtractionTask where
  id : String
  fileName : String
  filePath : String
  status : TaskStatus
  outputPath : Option String := none
  transcriptPath : Option String := none
  error : Option String := none
  startTime : Option Nat := none
  endTime : Option Nat := none
  logs : List LogEntry := []
deriving DecidableEq, Repr

/-- The reducer state (ExtractionState in src/context/extraction-context.tsx,
current version with targetLanguage). -/
structure ExtractionState where
  tasks : List ExtractionTask
  outputFolder : Option String
  lastOutputPath : Option String
  isProcessing : Bool
  targetLanguage : Option String
deriving DecidableEq, Repr

/-- The initialState constant of src/context/extraction-context.tsx. -/
def initialState : ExtractionState :=
  { tasks := []
    outputFolder := none
    lastOutputPath := none
    isProcessing := false
    targetLanguage := none }

/-- Payload of one ADD_TASKS entry: Omit of ExtractionTask over id, status,
logs (src/types/extraction.ts). -/
structure NewTaskInput where
  fileName : String
  filePath : String
  outputPath : Option String := none
  transcriptPath : Option String := none
  error : Option String := none
  startTime : Option Nat := none
  endTime : Option Nat := none
deriving DecidableEq, Repr

/-- The ExtractionAction union handled by the reducer. In addTasks each
payload is paired with the fresh id the environment generates for it
(crypto.randomUUID in the source). -/
inductive ExtractionAction where
  | addTasks (tasks : List (String × NewTaskInput))
  | setOutputFolder (folder : String)
  | setLastOutputPath (path : Option String)
  | setTargetLanguage (language : String)
  | startProcessing
  | stopProcessing
  | taskStarted (taskId : String)
  | taskTranscribing (taskId : String)
  | taskTranslating (taskId : String)
  | taskCompleted (taskId : String) (outputPath : String)
  | taskTranscriptionComplete (taskId : String) (audioPath : String)
      (transcriptPath : String)
  | translationComplete (taskId : String) (translatedPath : String)
  | taskFailed (taskId : String) (errorMessage : String)
  | removeTask (taskId : String)
  | clearCompleted
  | reset
  | addLogEntry (taskId : String) (logEntry : LogEntry)
deriving DecidableEq, Repr

/-- Builds the task record an ADD_TASKS payload becomes: the payload fields
spread together with the generated id, status pending and empty logs. -/
def mkNewTask (p : String × NewTaskInput) : ExtractionTask :=
  { id := p.1
    fileName := p.2.fileName
    filePath := p.2.filePath
    status := TaskStatus.pending
    outputPath := p.2.outputPath
    transcriptPath := p.2.transcriptPath
    error := p.2.error
    startTime := p.2.startTime
    endTime := p.2.endTime
    logs := [] }

/-- The extractionReducer function of src/context/extraction-context.tsx.
Calls to Date.now() inside a single dispatch are modelled by the explicit
parameter now. -/
def extractionReducer (now : Nat) (state : ExtractionState)
    (action : ExtractionAction) : ExtractionState :=
  match action with
  | ExtractionAction.addTasks ts =>
      { state with tasks := state.tasks ++ ts.map mkNewTask }
  | ExtractionAction.setOutputFolder folder =>
      { state with outputFolder := some folder }
  | ExtractionAction.setLastOutputPath path =>
      { state with lastOutputPath := path }
  | ExtractionAction.setTargetLanguage language =>
      { state with targetLanguage := some language }
  | ExtractionAction.startProcessing =>
      { state with isProcessing := true }
  | ExtractionAction.stopProcessing =>
      { state with isProcessing := false }
  | ExtractionAction.taskStarted taskId =>
      { state with tasks := state.tasks.map fun task =>
          if task.id = taskId then
            { task with status := TaskStatus.processing, startTime := some now }
          else task }
  | ExtractionAction.taskTranscribing taskId =>
      { state with tasks := state.tasks.map fun task =>
          if task.id = taskId then
            { task with status := TaskStatus.transcribing }
          else task }
  | ExtractionAction.taskTranslating taskId =>
      { state with tasks := state.tasks.map fun task =>
          if task.id = taskId then
            { task with status := TaskStatus.translating }
          else task }
  | ExtractionAction.taskCompleted taskId outputPath =>
      { state with tasks := state.tasks.map fun task =>
          if task.id = taskId then
            { task with status := TaskStatus.completed
                        outputPath := some outputPath
                        endTime := some now }
          else task }
  | ExtractionAction.taskTranscriptionComplete taskId _audioPath transcriptPath =>
      { state with tasks := state.tasks.map fun task =>
          if task.id = taskId then
            { task with status := TaskStatus.completed
                        outputPath := some transcriptPath
                        transcriptPath := some transcriptPath
                        endTime := some now }
          else task }
  | ExtractionAction.translationComplete taskId translatedPath =>
      { state with tasks := state.tasks.map fun task =>
          if task.id = taskId then
            { task with status := TaskStatus.completed
                        outputPath := some translatedPath
                        endTime := some now }
          else task }
  | ExtractionAction.taskFailed taskId errorMessage =>
      { state with tasks := state.tasks.map fun task =>
          if task.id = taskId then
            { task with status := TaskStatus.failed
                        error := some errorMessage
                        endTime := some now }
          else task }
  | ExtractionAction.removeTask taskId =>
      { state with tasks :=
          state.tasks.filter (fun task => decide (task.id ≠ taskId)) }
  | ExtractionAction.clearCompleted =>
      { state with tasks :=
          state.tasks.filter (fun task => decide (task.status ≠ TaskStatus.completed)) }
  | ExtractionAction.reset => initialState
  | ExtractionAction.addLogEntry taskId logEntry =>
      { state with tasks := state.tasks.map fun task =>
          if task.id = taskId then
            { task with logs := task.logs ++ [logEntry] }
          else task }

/-- States the reducer can reach from initialState by dispatching actions. -/
inductive Reachable : ExtractionState → Prop where
  | init : Reachable initialState
  | step (now : Nat) (a : ExtractionAction) {s : ExtractionState} :
      Reachable s → Reachable (extractionReducer now s a)

/-- A concrete ADD_TASKS payload used by the concrete evaluations below. -/
def demoPayload : NewTaskInput :=
  { fileName := "a.mp4", filePath := "/videos/a.mp4" }

/-- One pending task added from initialState. -/
def stateAdded : ExtractionState :=
  extractionReducer 0 initialState
    (ExtractionAction.addTasks [("a", demoPayload)])

/-- The task of stateAdded completed via TASK_COMPLETED. -/
def stateDone : ExtractionState :=
  extractionReducer 1 stateAdded
    (ExtractionAction.taskCompleted "a" "/out/a_zh.srt")

/-- The completed task of stateDone then receiving TASK_FAILED. -/
def stateDoneFailed : ExtractionState :=
  extractionReducer 2 stateDone
    (ExtractionAction.taskFailed "a" "network down")

/-- Case split for membership in a map that updates the task matching an id
and keeps every other task: the fixed shape of the status, log and completion
branches of extractionReducer. -/
theorem mem_map_update {l : List ExtractionTask} {t : ExtractionTask}
    {u : ExtractionTask → ExtractionTask} {tid : String}
    (h : t ∈ l.map (fun task => if task.id = tid then u task else task)) :
    (∃ t₀, t₀ ∈ l ∧ t₀.id = tid ∧ t = u t₀) ∨ t ∈ l := by
  obtain ⟨t₀, ht₀, rfl⟩ := List.mem_map.mp h
  by_cases hid : t₀.id = tid
  · exact Or.inl ⟨t₀, ht₀, hid, by rw [if_pos hid]⟩
  · right
    rw [if_neg hid]
    exact ht₀

/-- Claim C1 (amended): in every reachable reducer state, a task whose status
is completed has outputPath set. (The converse direction of the original
claim fails: TASK_FAILED does not clear outputPath.) -/
theorem completed_task_has_outputPath {s : ExtractionState}
    (h : Reachable s) :
    ∀ t ∈ s.tasks, t.status = TaskStatus.completed →
      t.outputPath.isSome = true := by
  induction h with
  | init =>
    intro t ht
    simp [initialState] at ht
  | step now a hs ih =>
    intro t ht hc
    cases a with
    | addTasks ts =>
      rcases List.mem_append.mp ht with h1 | h2
      · exact ih t h1 hc
      · obtain ⟨p, _, rfl⟩ := List.mem_map.mp h2
        simp [mkNewTask] at hc
    | setOutputFolder folder => exact ih t ht hc
    | setLastOutputPath path => exact ih t ht hc
    | setTargetLanguage language => exact ih t ht hc
    | startProcessing => exact ih t ht hc
    | stopProcessing => exact ih t ht hc
    | taskStarted tid =>
      rcases mem_map_update ht with ⟨t₀, _, _, rfl⟩ | hmem
      · simp at hc
      · exact ih t hmem hc
    | taskTranscribing tid =>
      rcases mem_map_update ht with ⟨t₀, _, _, rfl⟩ | hmem
      · simp at hc
      · exact ih t hmem hc
    | taskTranslating tid =>
      rcases mem_map_update ht with ⟨t₀, _, _, rfl⟩ | hmem
      · simp at hc
      · exact ih t hmem hc
    | taskCompleted tid out =>
      rcases mem_map_update ht with ⟨t₀, _, _, rfl⟩ | hmem
      · simp
      · exact ih t hmem hc
    | taskTranscriptionComplete tid audio transcript =>
      rcases mem_map_update ht with ⟨t₀, _, _, rfl⟩ | hmem
      · simp
      · exact ih t hmem hc
    | translationComplete tid translated =>
      rcases mem_map_update ht with ⟨t₀, _, _, rfl⟩ | hmem
      · simp
      · exact ih t hmem hc
    | taskFailed tid msg =>
      rcases mem_map_update ht with ⟨t₀, _, _, rfl⟩ | hmem
      · simp at hc
      · exact ih t hmem hc
    | removeTask tid => exact ih t (List.mem_filter.mp ht).1 hc
    | clearCompleted => exact ih t (List.mem_filter.mp ht).1 hc
    | reset =>
      simp [extractionReducer, initialState] at ht
    | addLogEntry tid e =>
      rcases mem_map_update ht with ⟨t₀, ht₀, _, rfl⟩ | hmem
      · exact ih t₀ ht₀ (by simpa using hc)
      · exact ih t hmem hc

/-- The task record stateDone holds: completed with outputPath set. -/
def demoDoneTask : ExtractionTask :=
  { id := "a"
    fileName := "a.mp4"
    filePath := "/videos/a.mp4"
    status := TaskStatus.completed
    outputPath := some "/out/a_zh.srt"
    endTime := some 1 }

/-- Witness for completed_task_has_outputPath at the concrete reachable state
stateDone and its completed task. -/
theorem completed_task_has_outputPath_witness :
    demoDoneTask.outputPath.isSome = true :=
  completed_task_has_outputPath
    (Reachable.step 1 (ExtractionAction.taskCompleted "a" "/out/a_zh.srt")
      (Reachable.step 0 (ExtractionAction.addTasks [("a", demoPayload)])
        Reachable.init))
    demoDoneTask (by decide) (by decide)

/-- Claim C1 counterexample: stateDoneFailed is reachable (ADD_TASKS, then
TASK_COMPLETED, then TASK_FAILED on the same task) and its task has status
failed while outputPath is still set, so the stated iff is violated. -/
theorem outputPath_kept_on_failed_counterexample :
    Reachable stateDoneFailed ∧
    stateDoneFailed.tasks.map (fun t => (t.status, t.outputPath))
      = [(TaskStatus.failed, some "/out/a_zh.srt")] := by
  constructor
  · exact Reachable.step 2 (ExtractionAction.taskFailed "a" "network down")
      (Reachable.step 1 (ExtractionAction.taskCompleted "a" "/out/a_zh.srt")
        (Reachable.step 0 (ExtractionAction.addTasks [("a", demoPayload)])
          Reachable.init))
  · rfl

/-- For the seven status-carrying actions, the id they target and the status
they write; none for every other action. -/
def actionStatusTarget : ExtractionAction → Option (String × TaskStatus)
  | ExtractionAction.taskStarted tid => some (tid, TaskStatus.processing)
  | ExtractionAction.taskTranscribing tid => some (tid, TaskStatus.transcribing)
  | ExtractionAction.taskTranslating tid => some (tid, TaskStatus.translating)
  | ExtractionAction.taskCompleted tid _ => some (tid, TaskStatus.completed)
  | ExtractionAction.taskTranscriptionComplete tid _ _ =>
      some (tid, TaskStatus.completed)
  | ExtractionAction.translationComplete tid _ => some (tid, TaskStatus.completed)
  | ExtractionAction.taskFailed tid _ => some (tid, TaskStatus.failed)
  | _ => none

/-- Claim C3 (amended): the reducer enforces no forward-only ordering. Every
status-carrying action unconditionally overwrites the status of each task
matching its id with the status fixed by the action, regardless of the
previous status, so a later stage can be left for an earlier one. -/
theorem reducer_status_overwrites (now : Nat) (s : ExtractionState)
    (a : ExtractionAction) (tid : String) (st : TaskStatus)
    (h : actionStatusTarget a = some (tid, st)) :
    (extractionReducer now s a).tasks.map (fun t => (t.id, t.status))
      = s.tasks.map (fun t => (t.id, if t.id = tid then st else t.status)) := by
  cases a with
  | addTasks ts => simp [actionStatusTarget] at h
  | setOutputFolder folder => simp [actionStatusTarget] at h
  | setLastOutputPath path => simp [actionStatusTarget] at h
  | setTargetLanguage language => simp [actionStatusTarget] at h
  | startProcessing => simp [actionStatusTarget] at h
  | stopProcessing => simp [actionStatusTarget] at h
  | removeTask tid2 => simp [actionStatusTarget] at h
  | clearCompleted => simp [actionStatusTarget] at h
  | reset => simp [actionStatusTarget] at h
  | addLogEntry tid2 e => simp [actionStatusTarget] at h
  | taskStarted tid2 =>
    simp only [actionStatusTarget, Option.some.injEq, Prod.mk.injEq] at h
    obtain ⟨rfl, rfl⟩ := h
    simp only [extractionReducer, List.map_map]
    refine List.map_congr_left fun t _ => ?_
    by_cases hid : t.id = tid2 <;> simp [Function.comp, hid]
  | taskTranscribing tid2 =>
    simp only [actionStatusTarget, Option.some.injEq, Prod.mk.injEq] at h
    obtain ⟨rfl, rfl⟩ := h
    simp only [extractionReducer, List.map_map]
    refine List.map_congr_left fun t _ => ?_
    by_cases hid : t.id = tid2 <;> simp [Function.comp, hid]
  | taskTranslating tid2 =>
    simp only [actionStatusTarget, Option.some.injEq, Prod.mk.injEq] at h
    obtain ⟨rfl, rfl⟩ := h
    simp only [extractionReducer, List.map_map]
    refine List.map_congr_left fun t _ => ?_
    by_cases hid : t.id = tid2 <;> simp [Function.comp, hid]
  | taskCompleted tid2 out =>
    simp only [actionStatusTarget, Option.some.injEq, Prod.mk.injEq] at h
    obtain ⟨rfl, rfl⟩ := h
    simp only [extractionReducer, List.map_map]
    refine List.map_congr_left fun t _ => ?_
    by_cases hid : t.id = tid2 <;> simp [Function.comp, hid]
  | taskTranscriptionComplete tid2 audio transcript =>
    simp only [actionStatusTarget, Option.some.injEq, Prod.mk.injEq] at h
    obtain ⟨rfl, rfl⟩ := h
    simp only [extractionReducer, List.map_map]
    refine List.map_congr_left fun t _ => ?_
    by_cases hid : t.id = tid2 <;> simp [Function.comp, hid]
  | translationComplete tid2 translated =>
    simp only [actionStatusTarget, Option.some.injEq, Prod.mk.injEq] at h
    obtain ⟨rfl, rfl⟩ := h
    simp only [extractionReducer, List.map_map]
    refine List.map_congr_left fun t _ => ?_
    by_cases hid : t.id = tid2 <;> simp [Function.comp, hid]
  | taskFailed tid2 msg =>
    simp only [actionStatusTarget, Option.some.injEq, Prod.mk.injEq] at h
    obtain ⟨rfl, rfl⟩ := h
    simp only [extractionReducer, List.map_map]
    refine List.map_congr_left fun t _ => ?_
    by_cases hid : t.id = tid2 <;> simp [Function.comp, hid]

/-- Witness for reducer_status_overwrites: TASK_STARTED dispatched on the
completed task of stateDone overwrites its terminal status. -/
theorem reducer_status_overwrites_witness :
    (extractionReducer 2 stateDone (ExtractionAction.taskStarted "a")).tasks.map
        (fun t => (t.id, t.status))
      = stateDone.tasks.map
        (fun t => (t.id, if t.id = "a" then TaskStatus.processing else t.status)) :=
  reducer_status_overwrites 2 stateDone (ExtractionAction.taskStarted "a") "a"
    TaskStatus.processing rfl

/-- Claim C3 counterexample: stateDone is reachable with its only task
completed (a terminal stage), and dispatching TASK_STARTED moves that task
back to processing, re-entering an earlier stage. -/
theorem stage_regression_counterexample :
    Reachable stateDone ∧
    stateDone.tasks.map (fun t => t.status) = [TaskStatus.completed] ∧
    (extractionReducer 2 stateDone (ExtractionAction.taskStarted "a")).tasks.map
        (fun t => t.status)
      = [TaskStatus.processing] := by
  refine ⟨?_, rfl, rfl⟩
  exact Reachable.step 1 (ExtractionAction.taskCompleted "a" "/out/a_zh.srt")
    (Reachable.step 0 (ExtractionAction.addTasks [("a", demoPayload)])
      Reachable.init)

/-- Claim C7: per-task logs are append-only, characterized exactly for
every reducer action. ADD_LOG_ENTRY appends exactly one entry at the end of
the logs of each task matching its id and leaves every other log list
unchanged; ADD_TASKS keeps every existing log list in place and appends the
new tasks with empty logs; every status-carrying action leaves every log
list unchanged in order; the state-field actions leave the task list
untouched; REMOVE_TASK and CLEAR_COMPLETED keep the retained tasks as a
sublist with whole records, hence logs, untouched; RESET retains no task.
So no action ever modifies or removes an existing log entry of a retained
task, and log order is insertion order. -/
theorem logs_append_only (now : Nat) (s : ExtractionState) :
    (∀ (tid : String) (e : LogEntry),
      (extractionReducer now s (ExtractionAction.addLogEntry tid e)).tasks.map
          (fun t => (t.id, t.logs))
        = s.tasks.map (fun t =>
            (t.id, if t.id = tid then t.logs ++ [e] else t.logs))) ∧
    (∀ ts : List (String × NewTaskInput),
      (extractionReducer now s (ExtractionAction.addTasks ts)).tasks.map
          (fun t => (t.id, t.logs))
        = s.tasks.map (fun t => (t.id, t.logs))
            ++ ts.map (fun p => (p.1, ([] : List LogEntry)))) ∧
    (∀ (a : ExtractionAction) (tid : String) (st : TaskStatus),
      actionStatusTarget a = some (tid, st) →
        (extractionReducer now s a).tasks.map (fun t => (t.id, t.logs))
          = s.tasks.map (fun t => (t.id, t.logs))) ∧
    (∀ folder,
      (extractionReducer now s (ExtractionAction.setOutputFolder folder)).tasks
        = s.tasks) ∧
    (∀ path,
      (extractionReducer now s (ExtractionAction.setLastOutputPath path)).tasks
        = s.tasks) ∧
    (∀ language,
      (extractionReducer now s
          (ExtractionAction.setTargetLanguage language)).tasks
        = s.tasks) ∧
    ((extractionReducer now s ExtractionAction.startProcessing).tasks
        = s.tasks) ∧
    ((extractionReducer now s ExtractionAction.stopProcessing).tasks
        = s.tasks) ∧
    (∀ tid, List.Sublist
        (extractionReducer now s (ExtractionAction.removeTask tid)).tasks
        s.tasks) ∧
    List.Sublist (extractionReducer now s ExtractionAction.clearCompleted).tasks
        s.tasks ∧
    (extractionReducer now s ExtractionAction.reset).tasks = [] := by
  refine ⟨?_, ?_, ?_, fun folder => rfl, fun path => rfl, fun language => rfl,
    rfl, rfl, fun tid => List.filter_sublist _, List.filter_sublist _, rfl⟩
  · intro tid e
    simp only [extractionReducer, List.map_map]
    refine List.map_congr_left fun t _ => ?_
    by_cases hid : t.id = tid <;> simp [Function.comp, hid]
  · intro ts
    simp only [extractionReducer, List.map_append, List.map_map]
    congr 1
  · intro a tid st h
    cases a with
    | addTasks ts => simp [actionStatusTarget] at h
    | setOutputFolder folder => simp [actionStatusTarget] at h
    | setLastOutputPath path => simp [actionStatusTarget] at h
    | setTargetLanguage language => simp [actionStatusTarget] at h
    | startProcessing => simp [actionStatusTarget] at h
    | stopProcessing => simp [actionStatusTarget] at h
    | removeTask tid2 => simp [actionStatusTarget] at h
    | clearCompleted => simp [actionStatusTarget] at h
    | reset => simp [actionStatusTarget] at h
    | addLogEntry tid2 e => simp [actionStatusTarget] at h
    | taskStarted tid2 =>
      simp only [extractionReducer, List.map_map]
      refine List.map_congr_left fun t _ => ?_
      by_cases hid : t.id = tid2 <;> simp [Function.comp, hid]
    | taskTranscribing tid2 =>
      simp only [extractionReducer, List.map_map]
      refine List.map_congr_left fun t _ => ?_
      by_cases hid : t.id = tid2 <;> simp [Function.comp, hid]
    | taskTranslating tid2 =>
      simp only [extractionReducer, List.map_map]
      refine List.map_congr_left fun t _ => ?_
      by_cases hid : t.id = tid2 <;> simp [Function.comp, hid]
    | taskCompleted tid2 out =>
      simp only [extractionReducer, List.map_map]
      refine List.map_congr_left fun t _ => ?_
      by_cases hid : t.id = tid2 <;> simp [Function.comp, hid]
    | taskTranscriptionComplete tid2 audio transcript =>
      simp only [extractionReducer, List.map_map]
      refine List.map_congr_left fun t _ => ?_
      by_cases hid : t.id = tid2 <;> simp [Function.comp, hid]
    | translationComplete tid2 translated =>
      simp only [extractionReducer, List.map_map]
      refine List.map_congr_left fun t _ => ?_
      by_cases hid : t.id = tid2 <;> simp [Function.comp, hid]
    | taskFailed tid2 msg =>
      simp only [extractionReducer, List.map_map]
      refine List.map_congr_left fun t _ => ?_
      by_cases hid : t.id = tid2 <;> simp [Function.comp, hid]

/-- Claim C8: TASK_FAILED is frame-preserving. It leaves outputFolder,
lastOutputPath, isProcessing and targetLanguage unchanged, and pointwise
leaves every task with a different id untouched while the matching task only
gets status failed, the error message and the end time. -/
theorem taskFailed_frame (now : Nat) (s : ExtractionState)
    (tid errorMessage : String) :
    (extractionReducer now s (ExtractionAction.taskFailed tid errorMessage)).outputFolder
        = s.outputFolder ∧
    (extractionReducer now s (ExtractionAction.taskFailed tid errorMessage)).lastOutputPath
        = s.lastOutputPath ∧
    (extractionReducer now s (ExtractionAction.taskFailed tid errorMessage)).isProcessing
        = s.isProcessing ∧
    (extractionReducer now s (ExtractionAction.taskFailed tid errorMessage)).targetLanguage
        = s.targetLanguage ∧
    List.Forall₂
      (fun t t2 =>
        (t.id ≠ tid → t2 = t) ∧
        (t.id = tid →
          t2 = { t with status := TaskStatus.failed
                        error := some errorMessage
                        endTime := some now }))
      s.tasks
      (extractionReducer now s (ExtractionAction.taskFailed tid errorMessage)).tasks := by
  refine ⟨rfl, rfl, rfl, rfl, ?_⟩
  simp only [extractionReducer]
  induction s.tasks with
  | nil => exact List.Forall₂.nil
  | cons t ts ih =>
    exact List.Forall₂.cons ⟨fun h => if_neg h, fun h => if_pos h⟩ ih

/-- Count of elements failing a Bool predicate plus count satisfying it. -/
theorem countP_not_add_countP {α : Type} (l : List α) (p : α → Bool) :
    l.countP (fun a => !p a) + l.countP p = l.length := by
  induction l with
  | nil => rfl
  | cons x xs ih =>
    by_cases h : p x = true <;> simp [List.countP_cons, h, ← ih] <;> omega

/-- Claim C10: CLEAR_COMPLETED removes exactly the completed tasks. The
remaining tasks form a sublist of the previous ones (so each retained task
keeps all its fields and the original relative order), none of them is
completed, every non-completed task is retained, their number equals the
previous number of non-completed tasks, and the rest of the state is
unchanged. -/
theorem clearCompleted_removes_exactly_completed (now : Nat)
    (s : ExtractionState) :
    (extractionReducer now s ExtractionAction.clearCompleted).outputFolder
        = s.outputFolder ∧
    (extractionReducer now s ExtractionAction.clearCompleted).lastOutputPath
        = s.lastOutputPath ∧
    (extractionReducer now s ExtractionAction.clearCompleted).isProcessing
        = s.isProcessing ∧
    (extractionReducer now s ExtractionAction.clearCompleted).targetLanguage
        = s.targetLanguage ∧
    List.Sublist (extractionReducer now s ExtractionAction.clearCompleted).tasks
        s.tasks ∧
    (∀ t ∈ (extractionReducer now s ExtractionAction.clearCompleted).tasks,
        t.status ≠ TaskStatus.completed) ∧
    (∀ t ∈ s.tasks, t.status ≠ TaskStatus.completed →
        t ∈ (extractionReducer now s ExtractionAction.clearCompleted).tasks) ∧
    (extractionReducer now s ExtractionAction.clearCompleted).tasks.length
        + s.tasks.countP (fun t => decide (t.status = TaskStatus.completed))
      = s.tasks.length := by
  refine ⟨rfl, rfl, rfl, rfl, List.filter_sublist _, ?_, ?_, ?_⟩
  · intro t ht
    have h := (List.mem_filter.mp ht).2
    simpa using h
  · intro t ht hst
    exact List.mem_filter.mpr ⟨ht, by simpa using hst⟩
  · show (s.tasks.filter fun t => decide (t.status ≠ TaskStatus.completed)).length
        + s.tasks.countP (fun t => decide (t.status = TaskStatus.completed))
      = s.tasks.length
    rw [← List.countP_eq_length_filter]
    have h := countP_not_add_countP s.tasks
      (fun t => decide (t.status = TaskStatus.completed))
    simpa [decide_not] using h

/-- The task of stateAdded in status transcribing, reached by TASK_STARTED
then TASK_TRANSCRIBING (the task:started and transcription:started events). -/
def stateTranscribingA : ExtractionState :=
  extractionReducer 3
    (extractionReducer 2 stateAdded (ExtractionAction.taskStarted "a"))
    (ExtractionAction.taskTranscribing "a")

/-- Claim C2: evaluation at the failing input. A task in the transcribing
stage receiving TASK_TRANSCRIPTION_COMPLETE (the transcription:complete
event) is set to the terminal status completed with outputPath equal to the
intermediate transcript path, not to the translating stage as the spec and
the repository documentation describe. -/
theorem transcriptionComplete_goes_terminal :
    stateTranscribingA.tasks.map (fun t => t.status)
        = [TaskStatus.transcribing] ∧
    (extractionReducer 4 stateTranscribingA
        (ExtractionAction.taskTranscriptionComplete "a" "/tmp/a.wav"
          "/tmp/a-original.srt")).tasks.map (fun t => (t.status, t.outputPath))
      = [(TaskStatus.completed, some "/tmp/a-original.srt")] :=
  ⟨rfl, rfl⟩

/-- Modelled from the spec: the per-task pipeline stage of the backend
Scheduler and TaskPipeline (src-tauri/src/lib.rs, not part of the
repository snapshot): Pending, Extracting, Transcribing, Translating,
Completed, Failed. -/
inductive Stage where
  | pending
  | extracting
  | transcribing
  | translating
  | completed
  | failed
deriving DecidableEq, Repr

/-- Modelled from the spec: a stage is active when it is non-terminal and
holds a concurrency slot (Extracting, Transcribing or Translating). -/
def Stage.isActive : Stage → Bool
  | Stage.extracting => true
  | Stage.transcribing => true
  | Stage.translating => true
  | _ => false

/-- Number of tasks of a batch currently in an active stage. -/
def activeCount (stages : List Stage) : Nat :=
  stages.countP Stage.isActive

/-- Modelled from the spec: one scheduling or pipeline transition of the
backend Scheduler (src-tauri/src/lib.rs, not part of the repository
snapshot). The counting semaphore sized to the concurrency limit is the
guard on start: a pending task may begin only while fewer than limit tasks
are active; the slot is released when a task reaches a terminal stage. -/
inductive SchedStep (limit : Nat) (stages : List Stage) : List Stage → Prop where
  | start (i : Nat) (hi : stages.get? i = some Stage.pending)
      (hfree : activeCount stages < limit) :
      SchedStep limit stages (stages.set i Stage.extracting)
  | toTranscribing (i : Nat) (hi : stages.get? i = some Stage.extracting) :
      SchedStep limit stages (stages.set i Stage.transcribing)
  | toTranslating (i : Nat) (hi : stages.get? i = some Stage.transcribing) :
      SchedStep limit stages (stages.set i Stage.translating)
  | complete (i : Nat) (hi : stages.get? i = some Stage.translating) :
      SchedStep limit stages (stages.set i Stage.completed)
  | fail (i : Nat) (st : Stage) (hi : stages.get? i = some st)
      (hact : st.isActive = true) :
      SchedStep limit stages (stages.set i Stage.failed)

/-- Batch states the scheduler can reach: every task starts pending and the
state evolves by SchedStep transitions; the batch size is arbitrary. -/
inductive SchedReachable (limit : Nat) : List Stage → Prop where
  | init (n : Nat) : SchedReachable limit (List.replicate n Stage.pending)
  | step {s s2 : List Stage} : SchedReachable limit s → SchedStep limit s s2 →
      SchedReachable limit s2

/-- Updating one known element shifts countP by the difference of the
predicate on the old and new values. -/
theorem countP_set {α : Type} (p : α → Bool) (l : List α) (i : Nat)
    (x y : α) (h : l.get? i = some y) :
    (l.set i x).countP p + (if p y then 1 else 0)
      = l.countP p + (if p x then 1 else 0) := by
  induction l generalizing i with
  | nil => simp at h
  | cons a as ih =>
    cases i with
    | zero =>
      have hy : a = y := by simpa [List.get?] using h
      subst hy
      simp only [List.set, List.countP_cons]
      omega
    | succ j =>
      have h2 : as.get? j = some y := by simpa [List.get?] using h
      have h3 := ih j h2
      simp only [List.set, List.countP_cons]
      omega

/-- Claim C4: in every reachable scheduler state, for any batch size, at
most limit tasks are simultaneously in an active non-terminal stage
(Extracting, Transcribing or Translating). -/
theorem scheduler_active_le_limit {limit : Nat} {stages : List Stage}
    (h : SchedReachable limit stages) : activeCount stages ≤ limit := by
  induction h with
  | init n =>
    induction n with
    | zero => simp [activeCount]
    | succ m ihm =>
      simpa [activeCount, List.replicate, List.countP_cons, Stage.isActive]
        using ihm
  | step hs hstep ih =>
    cases hstep with
    | start i hi hfree =>
      have h2 := countP_set Stage.isActive _ i Stage.extracting Stage.pending hi
      simp [Stage.isActive] at h2
      simp only [activeCount] at h2 ih hfree ⊢
      omega
    | toTranscribing i hi =>
      have h2 := countP_set Stage.isActive _ i Stage.transcribing
        Stage.extracting hi
      simp [Stage.isActive] at h2
      simp only [activeCount] at h2 ih ⊢
      omega
    | toTranslating i hi =>
      have h2 := countP_set Stage.isActive _ i Stage.translating
        Stage.transcribing hi
      simp [Stage.isActive] at h2
      simp only [activeCount] at h2 ih ⊢
      omega
    | complete i hi =>
      have h2 := countP_set Stage.isActive _ i Stage.completed
        Stage.translating hi
      simp [Stage.isActive] at h2
      simp only [activeCount] at h2 ih ⊢
      omega
    | fail i st hi hact =>
      have h2 := countP_set Stage.isActive _ i Stage.failed st hi
      rw [hact] at h2
      simp [Stage.isActive] at h2
      simp only [activeCount] at h2 ih ⊢
      omega

/-- Witness for scheduler_active_le_limit: a batch of two pending tasks with
one started under the default limit of four. -/
theorem scheduler_active_le_limit_witness :
    activeCount ((List.replicate 2 Stage.pending).set 0 Stage.extracting) ≤ 4 :=
  scheduler_active_le_limit
    (SchedReachable.step (SchedReachable.init 2)
      (SchedStep.start 0 (by decide) (by decide)))

/-- Modelled from the spec: the error taxonomy seen by RetryingOperation
(retry_with_backoff in src-tauri, not part of the repository snapshot):
transient network errors are retryable, permanent API errors are not. -/
inductive RetryError where
  | retryable (message : String)
  | nonRetryable (message : String)
deriving DecidableEq, Repr

/-- Observable trace of one RetryingOperation run: the surfaced result, how
many attempts were performed, and the waits inserted between attempts. -/
structure RetryTrace (α : Type) where
  result : Except RetryError α
  attempts : Nat
  delays : List Nat
deriving Repr

/-- Modelled from the spec: the attempt loop of RetryingOperation. The
operation is indexed by the attempt number; remaining counts the attempts
still allowed, delay is the wait that would precede the next attempt and is
multiplied by the backoff multiplier after every retryable failure. A
success or a non-retryable error stops immediately; a retryable error on
the last allowed attempt is surfaced. -/
def retryGo {α : Type} (op : Nat → Except RetryError α) (mult : Nat) :
    Nat → Nat → Nat → RetryTrace α
  | 0, _, _ => ⟨Except.error (RetryError.retryable "no attempts allowed"), 0, []⟩
  | 1, k, _ =>
    match op k with
    | Except.ok a => ⟨Except.ok a, 1, []⟩
    | Except.error e => ⟨Except.error e, 1, []⟩
  | remaining + 2, k, delay =>
    match op k with
    | Except.ok a => ⟨Except.ok a, 1, []⟩
    | Except.error (RetryError.nonRetryable m) =>
        ⟨Except.error (RetryError.nonRetryable m), 1, []⟩
    | Except.error (RetryError.retryable _) =>
        let rest := retryGo op mult (remaining + 1) (k + 1) (delay * mult)
        ⟨rest.result, rest.attempts + 1, delay :: rest.delays⟩

/-- Modelled from the spec: RetryingOperation with maxAttempts (default 3),
initialDelay (default 1000 ms) and backoffMultiplier (2). -/
def retryingOperation {α : Type} (op : Nat → Except RetryError α)
    (maxAttempts initialDelay mult : Nat) : RetryTrace α :=
  retryGo op mult maxAttempts 0 initialDelay

/-- Trace of the attempt loop when every attempt fails retryably. -/
theorem retryGo_allRetryable {α : Type} (op : Nat → Except RetryError α)
    (msg : Nat → String)
    (hop : ∀ k, op k = Except.error (RetryError.retryable (msg k)))
    (mult : Nat) :
    ∀ (r k d : Nat),
      retryGo op mult (r + 1) k d
        = ⟨Except.error (RetryError.retryable (msg (k + r))), r + 1,
            (List.range r).map fun i => d * mult ^ i⟩ := by
  intro r
  induction r with
  | zero =>
    intro k d
    simp [retryGo, hop k]
  | succ r ih =>
    intro k d
    show retryGo op mult (r + 2) k d = _
    rw [retryGo, hop k]
    simp only [ih (k + 1) (d * mult)]
    have hk : k + 1 + r = k + (r + 1) := by omega
    rw [hk]
    refine congrArg (RetryTrace.mk _ _) ?_
    rw [List.range_succ_eq_map, List.map_cons, List.map_map]
    refine congrArg₂ List.cons (by simp) ?_
    refine List.map_congr_left fun i _ => ?_
    simp [Function.comp, pow_succ]
    ring

/-- A non-retryable error at the current attempt stops the loop at once. -/
theorem retryGo_nonRetryable {α : Type} (op : Nat → Except RetryError α)
    (k : Nat) (m : String)
    (h : op k = Except.error (RetryError.nonRetryable m)) (mult d : Nat) :
    ∀ r, retryGo op mult (r + 1) k d
      = ⟨Except.error (RetryError.nonRetryable m), 1, []⟩ := by
  intro r
  cases r with
  | zero => simp [retryGo, h]
  | succ r2 =>
    show retryGo op mult (r2 + 2) k d = _
    rw [retryGo, h]

/-- Claim C5: RetryingOperation applied to an operation that fails retryably
on every invocation performs exactly maxAttempts attempts separated by the
delays initialDelay, initialDelay times mult, initialDelay times mult
squared and so on, and surfaces the final retryable error; an operation
that raises a non-retryable error is attempted exactly once, with no delay
and no further attempts. -/
theorem retryingOperation_spec (maxAttempts initialDelay mult : Nat)
    (hmax : 1 ≤ maxAttempts) :
    (∀ (op : Nat → Except RetryError String) (msg : Nat → String),
      (∀ k, op k = Except.error (RetryError.retryable (msg k))) →
        (retryingOperation op maxAttempts initialDelay mult).attempts
            = maxAttempts ∧
        (retryingOperation op maxAttempts initialDelay mult).delays
            = (List.range (maxAttempts - 1)).map
                (fun i => initialDelay * mult ^ i) ∧
        (retryingOperation op maxAttempts initialDelay mult).result
            = Except.error (RetryError.retryable (msg (maxAttempts - 1)))) ∧
    (∀ (op : Nat → Except RetryError String) (m : String),
      op 0 = Except.error (RetryError.nonRetryable m) →
        (retryingOperation op maxAttempts initialDelay mult).attempts = 1 ∧
        (retryingOperation op maxAttempts initialDelay mult).delays = [] ∧
        (retryingOperation op maxAttempts initialDelay mult).result
            = Except.error (RetryError.nonRetryable m)) := by
  obtain ⟨M, rfl⟩ : ∃ M, maxAttempts = M + 1 := ⟨maxAttempts - 1, by omega⟩
  constructor
  · intro op msg hop
    unfold retryingOperation
    rw [retryGo_allRetryable op msg hop mult M 0 initialDelay]
    simp
  · intro op m h
    unfold retryingOperation
    rw [retryGo_nonRetryable op 0 m h mult initialDelay M]
    simp

/-- Witness for retryingOperation_spec at the documented defaults: three
attempts, one second initial delay, multiplier two. -/
theorem retryingOperation_spec_witness :
    (∀ (op : Nat → Except RetryError String) (msg : Nat → String),
      (∀ k, op k = Except.error (RetryError.retryable (msg k))) →
        (retryingOperation op 3 1000 2).attempts = 3 ∧
        (retryingOperation op 3 1000 2).delays
            = (List.range (3 - 1)).map (fun i => 1000 * 2 ^ i) ∧
        (retryingOperation op 3 1000 2).result
            = Except.error (RetryError.retryable (msg (3 - 1)))) ∧
    (∀ (op : Nat → Except RetryError String) (m : String),
      op 0 = Except.error (RetryError.nonRetryable m) →
        (retryingOperation op 3 1000 2).attempts = 1 ∧
        (retryingOperation op 3 1000 2).delays = [] ∧
        (retryingOperation op 3 1000 2).result
            = Except.error (RetryError.nonRetryable m)) :=
  retryingOperation_spec 3 1000 2 (by decide)

/-- Modelled from the spec: TranslationClient (src-tauri/src/translation.rs,
not part of the repository snapshot). The translation call is wrapped in
RetryingOperation; on success the translated content is returned, on
exhaustion of all retryable attempts the original untranslated content is
returned with a fallback flag, and a non-retryable error propagates. -/
def translationClient (translate : Nat → Except RetryError String)
    (maxAttempts initialDelay mult : Nat) (original : String) :
    Except RetryError (String × Bool) :=
  match (retryingOperation translate maxAttempts initialDelay mult).result with
  | Except.ok translated => Except.ok (translated, false)
  | Except.error (RetryError.retryable _) => Except.ok (original, true)
  | Except.error (RetryError.nonRetryable m) =>
      Except.error (RetryError.nonRetryable m)

/-- Modelled from the spec: naming convention for the final subtitle file,
baseName, underscore, target language, dot srt. -/
def outputFileName (baseName targetLanguage : String) : String :=
  baseName ++ "_" ++ targetLanguage ++ ".srt"

/-- Modelled from the spec: the Translating stage of the pipeline. It runs
the TranslationClient on the subtitle content and, unless a non-retryable
error propagates, produces the output file name under the naming convention
together with the content written there. -/
def runTranslationStage (translate : Nat → Except RetryError String)
    (maxAttempts initialDelay mult : Nat)
    (original baseName targetLanguage : String) :
    Except RetryError (String × String) :=
  match translationClient translate maxAttempts initialDelay mult original with
  | Except.ok (content, _) =>
      Except.ok (outputFileName baseName targetLanguage, content)
  | Except.error e => Except.error e

/-- Claim C6: when every translation attempt fails retryably, the
translation step does not fail the task: the client falls back to the
original content, the stage yields the output name baseName underscore
language dot srt with content equal to the untranslated source, and the
TRANSLATION_COMPLETE dispatch sets the matching task to status completed
with outputPath set to the written path. -/
theorem translation_fallback_completes
    (translate : Nat → Except RetryError String) (msg : Nat → String)
    (maxAttempts initialDelay mult : Nat) (hmax : 1 ≤ maxAttempts)
    (hop : ∀ k, translate k = Except.error (RetryError.retryable (msg k)))
    (original baseName lang : String) :
    translationClient translate maxAttempts initialDelay mult original
        = Except.ok (original, true) ∧
    runTranslationStage translate maxAttempts initialDelay mult original
        baseName lang
        = Except.ok (baseName ++ "_" ++ lang ++ ".srt", original) ∧
    (∀ (now : Nat) (s : ExtractionState) (tid p : String),
      (extractionReducer now s
          (ExtractionAction.translationComplete tid p)).tasks.map
          (fun t => (t.id, t.status, t.outputPath))
        = s.tasks.map (fun t =>
            (t.id,
              if t.id = tid then (TaskStatus.completed, some p)
              else (t.status, t.outputPath)))) := by
  obtain ⟨M, rfl⟩ : ∃ M, maxAttempts = M + 1 := ⟨maxAttempts - 1, by omega⟩
  have hclient : translationClient translate (M + 1) initialDelay mult original
      = Except.ok (original, true) := by
    unfold translationClient retryingOperation
    rw [retryGo_allRetryable translate msg hop mult M 0 initialDelay]
  refine ⟨hclient, ?_, ?_⟩
  · unfold runTranslationStage
    rw [hclient]
    rfl
  · intro now s tid p
    simp only [extractionReducer, List.map_map]
    refine List.map_congr_left fun t _ => ?_
    by_cases hid : t.id = tid <;> simp [Function.comp, hid]

/-- Witness for translation_fallback_completes: a concrete subtitle whose
translation attempts all fail with a refused connection under the default
retry policy. -/
theorem translation_fallback_completes_witness :
    translationClient (fun _ => Except.error (RetryError.retryable "refused"))
        3 1000 2 "1\n00:00:00,000 --> 00:00:01,000\nhello\n"
        = Except.ok ("1\n00:00:00,000 --> 00:00:01,000\nhello\n", true) ∧
    runTranslationStage
        (fun _ => Except.error (RetryError.retryable "refused")) 3 1000 2
        "1\n00:00:00,000 --> 00:00:01,000\nhello\n" "video" "zh"
        = Except.ok ("video" ++ "_" ++ "zh" ++ ".srt",
            "1\n00:00:00,000 --> 00:00:01,000\nhello\n") ∧
    (∀ (now : Nat) (s : ExtractionState) (tid p : String),
      (extractionReducer now s
          (ExtractionAction.translationComplete tid p)).tasks.map
          (fun t => (t.id, t.status, t.outputPath))
        = s.tasks.map (fun t =>
            (t.id,
              if t.id = tid then (TaskStatus.completed, some p)
              else (t.status, t.outputPath)))) :=
  translation_fallback_completes
    (fun _ => Except.error (RetryError.retryable "refused"))
    (fun _ => "refused") 3 1000 2 (by decide) (fun _ => rfl)
    "1\n00:00:00,000 --> 00:00:01,000\nhello\n" "video" "zh"

/-- Index of the last occurrence of a character, the lastIndexOf call of
getDirectoryFromPath in src/lib/utils.ts; none when the character is
absent. -/
def lastIdxOf (c : Char) : List Char → Option Nat
  | [] => none
  | x :: xs =>
    match lastIdxOf c xs with
    | some i => some (i + 1)
    | none => if x = c then some 0 else none

/-- The backslash-to-slash normalization of getDirectoryFromPath in
src/lib/utils.ts. -/
def normalizeSeparators (s : List Char) : List Char :=
  s.map fun c => if c = '\\' then '/' else c

/-- The getDirectoryFromPath function of src/lib/utils.ts over character
lists: normalize separators, find the last slash, return the original path
up to (excluding) that index, or empty when there is none. -/
def getDirectoryFromPath (s : List Char) : List Char :=
  match lastIdxOf '/' (normalizeSeparators s) with
  | none => []
  | some i => s.take i

/-- A character counts as a path separator when it is a slash or a
backslash. -/
def isSep (c : Char) : Prop := c = '/' ∨ c = '\\'

instance isSep_decidable (c : Char) : Decidable (isSep c) :=
  inferInstanceAs (Decidable (c = '/' ∨ c = '\\'))

/-- lastIdxOf finds nothing exactly when the character does not occur. -/
theorem lastIdxOf_eq_none_iff (c : Char) (l : List Char) :
    lastIdxOf c l = none ↔ c ∉ l := by
  induction l with
  | nil => simp [lastIdxOf]
  | cons x xs ih =>
    cases hrec : lastIdxOf c xs with
    | some i =>
      have hc : c ∈ xs := by
        by_contra hn
        have h0 := ih.mpr hn
        rw [h0] at hrec
        exact Option.noConfusion hrec
      simp [lastIdxOf, hrec, hc]
    | none =>
      have hc : c ∉ xs := ih.mp hrec
      by_cases hx : x = c
      · subst hx
        simp [lastIdxOf, hrec]
      · simp only [lastIdxOf, hrec, if_neg hx, List.mem_cons]
        constructor
        · rintro - (h1 | h2)
          · exact hx h1.symm
          · exact hc h2
        · intro _
          trivial

/-- The index lastIdxOf returns carries the character. -/
theorem lastIdxOf_get (c : Char) (l : List Char) (i : Nat)
    (h : lastIdxOf c l = some i) : l.get? i = some c := by
  induction l generalizing i with
  | nil => simp [lastIdxOf] at h
  | cons x xs ih =>
    cases hrec : lastIdxOf c xs with
    | some j =>
      simp only [lastIdxOf, hrec] at h
      obtain rfl := Option.some.inj h
      simpa [List.get?] using ih j hrec
    | none =>
      simp only [lastIdxOf, hrec] at h
      by_cases hx : x = c
      · rw [if_pos hx] at h
        obtain rfl := Option.some.inj h
        simp [List.get?, hx]
      · rw [if_neg hx] at h
        cases h

/-- No occurrence of the character lies after the index lastIdxOf returns. -/
theorem lastIdxOf_last (c : Char) (l : List Char) (i : Nat)
    (h : lastIdxOf c l = some i) :
    ∀ j, i < j → l.get? j ≠ some c := by
  induction l generalizing i with
  | nil => simp [lastIdxOf] at h
  | cons x xs ih =>
    intro j hij
    cases hrec : lastIdxOf c xs with
    | some i2 =>
      simp only [lastIdxOf, hrec] at h
      obtain rfl := Option.some.inj h
      cases j with
      | zero => omega
      | succ j2 =>
        have hlt : i2 < j2 := by omega
        simpa [List.get?] using ih i2 hrec j2 hlt
    | none =>
      have hc : c ∉ xs := (lastIdxOf_eq_none_iff c xs).mp hrec
      simp only [lastIdxOf, hrec] at h
      by_cases hx : x = c
      · rw [if_pos hx] at h
        obtain rfl := Option.some.inj h
        cases j with
        | zero => omega
        | succ j2 =>
          simp only [List.get?]
          intro hj
          exact hc (List.get?_mem hj)
      · rw [if_neg hx] at h
        cases h

/-- The normalization map sends a character to a slash exactly when it is a
separator. -/
theorem normChar_eq_slash_iff (c : Char) :
    (if c = '\\' then '/' else c) = '/' ↔ isSep c := by
  by_cases h : c = '\\'
  · subst h
    decide
  · simp [h, isSep]

/-- Claim C9: getDirectoryFromPath returns the empty string for a path with
no separator, and otherwise returns the prefix of the original path
strictly before the last separator, slash and backslash treated
uniformly. -/
theorem getDirectoryFromPath_spec (s : List Char) :
    ((∀ c ∈ s, ¬ isSep c) → getDirectoryFromPath s = []) ∧
    (∀ c ∈ s, isSep c →
      ∃ i sc, s.get? i = some sc ∧ isSep sc ∧
        (∀ j d, i < j → s.get? j = some d → ¬ isSep d) ∧
        getDirectoryFromPath s = s.take i) := by
  constructor
  · intro hns
    have hnone : lastIdxOf '/' (normalizeSeparators s) = none := by
      rw [lastIdxOf_eq_none_iff]
      intro hmem
      obtain ⟨c, hc, hfc⟩ := List.mem_map.mp hmem
      exact hns c hc ((normChar_eq_slash_iff c).mp hfc)
    unfold getDirectoryFromPath
    rw [hnone]
  · intro c hc hsep
    have hmem : '/' ∈ normalizeSeparators s :=
      List.mem_map.mpr ⟨c, hc, (normChar_eq_slash_iff c).mpr hsep⟩
    cases hidx : lastIdxOf '/' (normalizeSeparators s) with
    | none => exact absurd hmem ((lastIdxOf_eq_none_iff _ _).mp hidx)
    | some i =>
      have hget := lastIdxOf_get _ _ _ hidx
      rw [normalizeSeparators, List.get?_map] at hget
      cases hsi : s.get? i with
      | none =>
        rw [hsi] at hget
        simp at hget
      | some sc =>
        rw [hsi] at hget
        have hfsc : (if sc = '\\' then '/' else sc) = '/' := by
          simpa using hget
        have hsc : isSep sc := (normChar_eq_slash_iff sc).mp hfsc
        refine ⟨i, sc, hsi, hsc, ?_, ?_⟩
        · intro j d hij hsj hd
          have hlast := lastIdxOf_last _ _ _ hidx j hij
          apply hlast
          rw [normalizeSeparators, List.get?_map, hsj]
          simp [(normChar_eq_slash_iff d).mpr hd]
        · unfold getDirectoryFromPath
          rw [hidx]
